import Mathlib

/-!
Verification of the scalar root-finding engine behind
`scipy.optimize.cython_optimize`.

The provided sources (`src/scipy/optimize/cython_optimize/__init__.py`) expose
the seven root finders (`bisect`, `ridder`, `brenth`, `brentq`, `newton`,
`secant`, `halley`) and document the "full output" diagnostics protocol: the
struct fields `funcalls`, `iterations`, `error_num`; error number -1 for a sign
error, -2 for a convergence error, and "All other values mean the solver
converged" (the docstring example shows `error_num: 281790720` on a successful
run, i.e. the field is left untouched on success).  The numeric solver bodies
are not part of the provided sources, so they are modelled from the design
document: a shared bracketed-solver state machine (Init / Iterate / Terminal)
parameterised by the per-round candidate/narrowing step of the concrete method,
the bisection step concretely, and the three open (derivative-based) methods.

Real numbers are modelled by `ℚ`, which keeps every definition executable and
every concrete run evaluable inside proofs.
-/

namespace CythonOptimize

/-- Error number for a sign error, from the module docstring: "The error number
returned is -1 for a sign error". -/
def SIGNERR : Int := -1

/-- Error number for a convergence error, from the module docstring:
"and -2 for a convergence error". -/
def CONVERR : Int := -2

/-- The full-output struct of the module docstring, containing `funcalls`
(number of function calls), `iterations` (number of iterations) and
`error_num` (error number). -/
structure FullOutput where
  funcalls : Int
  iterations : Int
  error_num : Int
  deriving Repr, DecidableEq

/-- Terminal classification of a solver invocation (error taxonomy of the
design document: Converged / Sign Error / Convergence Error / Configuration
Error). -/
inductive Status where
  | converged
  | signError
  | convergenceError
  | configError
  deriving Repr, DecidableEq

/-- Modelled from the spec: the uniform convergence predicate for bracketed
methods, "accept when |xb - xa| <= atol + rtol * max(|xa|,|xb|)".  The solver
bodies this predicate belongs to are not under the provided sources. -/
def bracket_accept (xa xb atol rtol : ℚ) : Prop :=
  |xb - xa| ≤ atol + rtol * max |xa| |xb|

instance (xa xb atol rtol : ℚ) : Decidable (bracket_accept xa xb atol rtol) :=
  inferInstanceAs (Decidable (_ ≤ _))

/-- Modelled from the spec: the uniform convergence predicate for open
methods, "accept when |x_new - x_old| <= atol + rtol * |x_new|". -/
def open_accept (xnew xold atol rtol : ℚ) : Prop :=
  |xnew - xold| ≤ atol + rtol * |xnew|

instance (xnew xold atol rtol : ℚ) : Decidable (open_accept xnew xold atol rtol) :=
  inferInstanceAs (Decidable (_ ≤ _))

/-- Modelled from the spec: the configuration-error condition, "invalid
tolerance pair (both zero) or invalid iteration cap (≤ 0)". -/
def config_error (atol rtol : ℚ) (maxiter : Int) : Prop :=
  (atol = 0 ∧ rtol = 0) ∨ maxiter ≤ 0

instance (atol rtol : ℚ) (maxiter : Int) : Decidable (config_error atol rtol maxiter) :=
  inferInstanceAs (Decidable (_ ∨ _))

/-- A working bracket: the two endpoints together with their cached function
values. -/
structure Bracket where
  xa : ℚ
  xb : ℚ
  fa : ℚ
  fb : ℚ
  deriving Repr, DecidableEq

/-- Modelled from the spec: a bracketed method is the per-round step of the
shared Iterate state, split into candidate selection and bracket narrowing;
`α` is method-private state (for example Brent keeps the previous iterate).
The solver bodies for bisect / ridder / brenth / brentq are not under the
provided sources, and the design document states that all four share one
state machine and differ only in this step. -/
structure Method (α : Type) where
  candidate : Bracket → α → ℚ
  narrow : Bracket → α → ℚ → ℚ → Bracket × α

/-- The working variables of one bracketed-solver invocation: the bracket, the
method-private state, the best point found so far together with its function
value, the two diagnostics counters, and the list of all points at which the
callback has been evaluated (most recent first). -/
structure LoopState (α : Type) where
  br : Bracket
  ms : α
  best : ℚ
  fbest : ℚ
  funcalls : Nat
  iterations : Nat
  evals : List ℚ

/-- Outcome of a bracketed-solver invocation: the returned root, the terminal
status and the final working state. -/
structure BracketResult (α : Type) where
  root : ℚ
  status : Status
  st : LoopState α

variable {α : Type}

/-- Modelled from the spec: best-point tracking, "the best point found
(smallest |f|)".  Given the current best pair and a newly evaluated pair,
keep whichever function value is smaller in absolute value. -/
def updBest (best fbest c fcv : ℚ) : ℚ × ℚ :=
  if |fcv| < |fbest| then (c, fcv) else (best, fbest)

/-- Modelled from the spec: the shared Iterate state of every bracketed
solver.  One round computes the method's candidate, evaluates the callback
there, short-circuits on an exact root, otherwise narrows the bracket and
accepts when the bracket satisfies the convergence predicate; the fuel is the
iteration cap and its exhaustion is the convergence error, returning the best
point found. -/
def bracketLoop (f : ℚ → ℚ) (m : Method α) (atol rtol : ℚ) :
    Nat → LoopState α → BracketResult α
  | 0, s => ⟨s.best, .convergenceError, s⟩
  | n + 1, s =>
    let c := m.candidate s.br s.ms
    let fcv := f c
    let s1 : LoopState α :=
      ⟨s.br, s.ms, (updBest s.best s.fbest c fcv).1, (updBest s.best s.fbest c fcv).2,
        s.funcalls + 1, s.iterations + 1, c :: s.evals⟩
    if fcv = 0 then ⟨c, .converged, s1⟩
    else
      let q := m.narrow s.br s.ms c fcv
      let s2 : LoopState α :=
        ⟨q.1, q.2, s1.best, s1.fbest, s1.funcalls, s1.iterations, s1.evals⟩
      if bracket_accept q.1.xa q.1.xb atol rtol then ⟨c, .converged, s2⟩
      else bracketLoop f m atol rtol n s2

/-- Modelled from the spec: the shared bracketed-solver state machine.  Init
validates the configuration, evaluates the callback at both endpoints, reports
a sign error when both function values have the same strict sign, and
short-circuits when an endpoint is an exact root; otherwise the Iterate state
runs under the iteration cap. -/
def bracketSolve (f : ℚ → ℚ) (m : Method α) (a0 : α) (xa xb atol rtol : ℚ)
    (maxiter : Int) : BracketResult α :=
  if config_error atol rtol maxiter then
    ⟨xa, .configError, ⟨⟨xa, xb, 0, 0⟩, a0, xa, 0, 0, 0, []⟩⟩
  else
    let fa := f xa
    let fb := f xb
    if 0 < fa * fb then
      ⟨0, .signError, ⟨⟨xa, xb, fa, fb⟩, a0, xa, fa, 2, 0, [xb, xa]⟩⟩
    else if fa = 0 then
      ⟨xa, .converged, ⟨⟨xa, xb, fa, fb⟩, a0, xa, fa, 2, 0, [xb, xa]⟩⟩
    else if fb = 0 then
      ⟨xb, .converged, ⟨⟨xa, xb, fa, fb⟩, a0, xb, fb, 2, 0, [xb, xa]⟩⟩
    else
      bracketLoop f m atol rtol maxiter.toNat
        ⟨⟨xa, xb, fa, fb⟩, a0, (updBest xa fa xb fb).1, (updBest xa fa xb fb).2,
          2, 0, [xb, xa]⟩

/-- Modelled from the spec: the bisection step, "candidate = midpoint(xa,xb);
replace whichever endpoint has the same sign as the candidate". -/
def bisectMethod : Method Unit :=
  ⟨fun br _ => (br.xa + br.xb) / 2,
   fun br _ c fcv =>
     if 0 < fcv * br.fa then (⟨c, br.xb, fcv, br.fb⟩, ())
     else (⟨br.xa, c, br.fa, fcv⟩, ())⟩

/-- Modelled from the spec: the `bisect` solver, the bisection step run under
the shared bracketed state machine. -/
def bisect (f : ℚ → ℚ) (xa xb xtol rtol : ℚ) (iter : Int) : BracketResult Unit :=
  bracketSolve f bisectMethod () xa xb xtol rtol iter

/-- The full-output write protocol from the module docstring: the error paths
assign `error_num` (-1 for a sign error, -2 for a convergence error) while a
successful run does not write `error_num` at all, leaving whatever value the
caller's struct already held ("All other values mean the solver converged");
`funcalls` and `iterations` are recorded as the run progresses. -/
def writeDiag (status : Status) (funcalls iterations : Nat) (d : FullOutput) :
    FullOutput :=
  match status with
  | .signError => ⟨(funcalls : Int), (iterations : Int), SIGNERR⟩
  | .convergenceError => ⟨(funcalls : Int), (iterations : Int), CONVERR⟩
  | .converged => ⟨(funcalls : Int), (iterations : Int), d.error_num⟩
  | .configError => ⟨0, 0, d.error_num⟩

/-- `bisect` composed with the full-output protocol: the caller passes in the
struct (possibly holding stale memory) and receives the root together with the
updated struct. -/
def bisectFull (f : ℚ → ℚ) (xa xb xtol rtol : ℚ) (iter : Int) (d : FullOutput) :
    ℚ × FullOutput :=
  ((bisect f xa xb xtol rtol iter).root,
    writeDiag (bisect f xa xb xtol rtol iter).status
      (bisect f xa xb xtol rtol iter).st.funcalls
      (bisect f xa xb xtol rtol iter).st.iterations d)

/-- Outcome of an open (derivative-based) solver invocation. -/
structure OpenResult where
  root : ℚ
  status : Status
  funcalls : Nat
  iterations : Nat
  deriving Repr, DecidableEq

/-- Modelled from the spec: the Newton iteration, "candidate = x - f(x)/f'(x);
if f'(x) evaluates to exactly zero, transition to ConvergenceError immediately
(cannot divide)"; on fuel exhaustion the last computed x is returned with a
convergence error. -/
def newtonLoop (f fp : ℚ → ℚ) (atol rtol : ℚ) : Nat → ℚ → Nat → Nat → OpenResult
  | 0, x, fc, it => ⟨x, .convergenceError, fc, it⟩
  | n + 1, x, fc, it =>
    if fp x = 0 then ⟨x, .convergenceError, fc + 2, it⟩
    else
      let xn := x - f x / fp x
      if open_accept xn x atol rtol then ⟨xn, .converged, fc + 2, it + 1⟩
      else newtonLoop f fp atol rtol n xn (fc + 2) (it + 1)

/-- Modelled from the spec: the `newton` solver (configuration validation in
front of the Newton iteration). -/
def newton (f fp : ℚ → ℚ) (x0 atol rtol : ℚ) (maxiter : Int) : OpenResult :=
  if config_error atol rtol maxiter then ⟨x0, .configError, 0, 0⟩
  else newtonLoop f fp atol rtol maxiter.toNat x0 0 0

/-- Modelled from the spec: the deterministic seed perturbation of the secant
method (a small fixed relative step from the initial guess). -/
def secant_perturb (x0 : ℚ) : ℚ :=
  x0 * (1 + 1 / 10000) + (if 0 ≤ x0 then 1 / 10000 else -(1 / 10000))

/-- Modelled from the spec: the secant iteration, "candidate =
x1 - f(x1)*(x1-x0)/(f(x1)-f(x0))", with a vanishing denominator treated as a
convergence error and the last computed x returned on fuel exhaustion. -/
def secantLoop (f : ℚ → ℚ) (atol rtol : ℚ) :
    Nat → ℚ → ℚ → ℚ → ℚ → Nat → Nat → OpenResult
  | 0, _, x1, _, _, fc, it => ⟨x1, .convergenceError, fc, it⟩
  | n + 1, x0, x1, f0, f1, fc, it =>
    if f1 - f0 = 0 then ⟨x1, .convergenceError, fc, it⟩
    else
      let xn := x1 - f1 * (x1 - x0) / (f1 - f0)
      if open_accept xn x1 atol rtol then ⟨xn, .converged, fc, it + 1⟩
      else secantLoop f atol rtol n x1 xn f1 (f xn) (fc + 1) (it + 1)

/-- Modelled from the spec: the `secant` solver seeded with the initial guess
and its deterministic perturbation. -/
def secant (f : ℚ → ℚ) (x0 atol rtol : ℚ) (maxiter : Int) : OpenResult :=
  if config_error atol rtol maxiter then ⟨x0, .configError, 0, 0⟩
  else
    secantLoop f atol rtol maxiter.toNat x0 (secant_perturb x0) (f x0)
      (f (secant_perturb x0)) 2 0

/-- Modelled from the spec: the Halley iteration, "candidate =
x - [2 f(x) f'(x)] / [2 f'(x)^2 - f(x) f''(x)]; a zero denominator is treated
identically to Newton's zero-derivative case". -/
def halleyLoop (f fp fpp : ℚ → ℚ) (atol rtol : ℚ) :
    Nat → ℚ → Nat → Nat → OpenResult
  | 0, x, fc, it => ⟨x, .convergenceError, fc, it⟩
  | n + 1, x, fc, it =>
    if 2 * fp x ^ 2 - f x * fpp x = 0 then ⟨x, .convergenceError, fc + 3, it⟩
    else
      let xn := x - 2 * f x * fp x / (2 * fp x ^ 2 - f x * fpp x)
      if open_accept xn x atol rtol then ⟨xn, .converged, fc + 3, it + 1⟩
      else halleyLoop f fp fpp atol rtol n xn (fc + 3) (it + 1)

/-- Modelled from the spec: the `halley` solver. -/
def halley (f fp fpp : ℚ → ℚ) (x0 atol rtol : ℚ) (maxiter : Int) : OpenResult :=
  if config_error atol rtol maxiter then ⟨x0, .configError, 0, 0⟩
  else halleyLoop f fp fpp atol rtol maxiter.toNat x0 0 0

/-- The bracket invariant of the design document: the cached endpoint values
are the function values of the endpoints and they have strictly opposite
signs. -/
def signInv (f : ℚ → ℚ) (br : Bracket) : Prop :=
  br.fa = f br.xa ∧ br.fb = f br.xb ∧ br.fa * br.fb < 0

/-- The best-point invariant: the cached best pair is a genuinely evaluated
point whose function value is minimal in absolute value among all evaluated
points. -/
def bestInv (f : ℚ → ℚ) (s : LoopState α) : Prop :=
  s.fbest = f s.best ∧ s.best ∈ s.evals ∧ ∀ p ∈ s.evals, |s.fbest| ≤ |f p|

/-- One round of iteration increments the counter by one, so a run with fuel
`n` charges at most `n` more iterations than it started with. -/
theorem bracketLoop_iterations_le (f : ℚ → ℚ) (m : Method α) (atol rtol : ℚ) :
    ∀ (n : Nat) (s : LoopState α),
      (bracketLoop f m atol rtol n s).st.iterations ≤ s.iterations + n := by
  intro n
  induction n with
  | zero => intro s; simp [bracketLoop]
  | succ n ih =>
    intro s
    simp only [bracketLoop]
    split
    · simp
    · split
      · simp
      · refine le_trans (ih _) ?_
        simp
        omega

/-- A Converged outcome of the iteration loop whose root is not an exact zero
was accepted by the bracket convergence predicate, so the final bracket
satisfies it. -/
theorem bracketLoop_converged_width (f : ℚ → ℚ) (m : Method α) (atol rtol : ℚ) :
    ∀ (n : Nat) (s : LoopState α),
      (bracketLoop f m atol rtol n s).status = .converged →
      f ((bracketLoop f m atol rtol n s).root) ≠ 0 →
      bracket_accept (bracketLoop f m atol rtol n s).st.br.xa
        (bracketLoop f m atol rtol n s).st.br.xb atol rtol := by
  intro n
  induction n with
  | zero => intro s h; simp [bracketLoop] at h
  | succ n ih =>
    intro s h h0
    by_cases hz : f (m.candidate s.br s.ms) = 0
    · simp only [bracketLoop, if_pos hz] at h0
      exact absurd hz h0
    · by_cases hacc :
        bracket_accept
          (m.narrow s.br s.ms (m.candidate s.br s.ms) (f (m.candidate s.br s.ms))).1.xa
          (m.narrow s.br s.ms (m.candidate s.br s.ms) (f (m.candidate s.br s.ms))).1.xb
          atol rtol
      · simp only [bracketLoop, if_neg hz, if_pos hacc]
        exact hacc
      · simp only [bracketLoop, if_neg hz, if_neg hacc] at h h0 ⊢
        exact ih _ h h0

/-- Updating the best pair with a newly evaluated point preserves the
best-point invariant extended by that point. -/
theorem updBest_inv (f : ℚ → ℚ) (best fbest c : ℚ) (evals : List ℚ)
    (h1 : fbest = f best) (h2 : best ∈ evals) (h3 : ∀ p ∈ evals, |fbest| ≤ |f p|) :
    (updBest best fbest c (f c)).2 = f (updBest best fbest c (f c)).1 ∧
      (updBest best fbest c (f c)).1 ∈ c :: evals ∧
      ∀ p ∈ c :: evals, |(updBest best fbest c (f c)).2| ≤ |f p| := by
  unfold updBest
  split
  · rename_i hlt
    refine ⟨rfl, List.mem_cons_self _ _, ?_⟩
    intro p hp
    rcases List.mem_cons.mp hp with hp | hp
    · subst hp; exact le_refl _
    · exact le_trans hlt.le (h3 p hp)
  · rename_i hlt
    push_neg at hlt
    refine ⟨h1, List.mem_cons_of_mem _ h2, ?_⟩
    intro p hp
    rcases List.mem_cons.mp hp with hp | hp
    · subst hp; exact hlt
    · exact h3 p hp

/-- The best-point invariant is maintained by the whole iteration loop, and
the root returned on fuel exhaustion is the tracked best point. -/
theorem bracketLoop_best (f : ℚ → ℚ) (m : Method α) (atol rtol : ℚ) :
    ∀ (n : Nat) (s : LoopState α), bestInv f s →
      bestInv f (bracketLoop f m atol rtol n s).st ∧
        ((bracketLoop f m atol rtol n s).status = .convergenceError →
          (bracketLoop f m atol rtol n s).root = (bracketLoop f m atol rtol n s).st.best) := by
  intro n
  induction n with
  | zero => intro s hs; exact ⟨hs, fun _ => rfl⟩
  | succ n ih =>
    intro s hs
    obtain ⟨h1, h2, h3⟩ := hs
    have hstep := updBest_inv f s.best s.fbest (m.candidate s.br s.ms) s.evals h1 h2 h3
    by_cases hz : f (m.candidate s.br s.ms) = 0
    · simp only [bracketLoop, if_pos hz]
      refine ⟨⟨hstep.1, hstep.2.1, hstep.2.2⟩, ?_⟩
      intro hcontra
      simp at hcontra
    · by_cases hacc :
        bracket_accept
          (m.narrow s.br s.ms (m.candidate s.br s.ms) (f (m.candidate s.br s.ms))).1.xa
          (m.narrow s.br s.ms (m.candidate s.br s.ms) (f (m.candidate s.br s.ms))).1.xb
          atol rtol
      · simp only [bracketLoop, if_neg hz, if_pos hacc]
        refine ⟨⟨hstep.1, hstep.2.1, hstep.2.2⟩, ?_⟩
        intro hcontra
        simp at hcontra
      · simp only [bracketLoop, if_neg hz, if_neg hacc]
        exact ih _ ⟨hstep.1, hstep.2.1, hstep.2.2⟩

/-- If the endpoint values straddle zero and the candidate value shares the
sign of the left endpoint value, the candidate value straddles zero with the
right endpoint value. -/
theorem sign_flip_pos (fa fb fcv : ℚ) (hab : fa * fb < 0) (h : 0 < fcv * fa) :
    fcv * fb < 0 := by
  rcases lt_trichotomy fa 0 with hfa | hfa | hfa
  · have hc : fcv < 0 := by nlinarith
    have hb : 0 < fb := by nlinarith
    exact mul_neg_of_neg_of_pos hc hb
  · rw [hfa, zero_mul] at hab
    exact absurd hab (lt_irrefl 0)
  · have hc : 0 < fcv := by nlinarith
    have hb : fb < 0 := by nlinarith
    exact mul_neg_of_pos_of_neg hc hb

/-- A nonzero candidate value that does not share the sign of the nonzero
left endpoint value straddles zero with it. -/
theorem sign_flip_nonpos (fa fcv : ℚ) (h : ¬ 0 < fcv * fa) (hc : fcv ≠ 0) (ha : fa ≠ 0) :
    fa * fcv < 0 := by
  have h' : fcv * fa < 0 := (not_lt.mp h).lt_of_ne (mul_ne_zero hc ha)
  rw [mul_comm]
  exact h'

/-- One bisection narrowing step preserves the sign-change invariant. -/
theorem bisect_narrow_signInv (f : ℚ → ℚ) (br : Bracket) (c : ℚ)
    (hs : signInv f br) (hz : f c ≠ 0) :
    signInv f (bisectMethod.narrow br () c (f c)).1 := by
  obtain ⟨h1, h2, h3⟩ := hs
  have hfa : br.fa ≠ 0 := by
    intro h
    rw [h, zero_mul] at h3
    exact lt_irrefl 0 h3
  show signInv f
    (if 0 < f c * br.fa then ((⟨c, br.xb, f c, br.fb⟩ : Bracket), ())
      else ((⟨br.xa, c, br.fa, f c⟩ : Bracket), ())).1
  split
  · rename_i hpos
    exact ⟨rfl, h2, sign_flip_pos br.fa br.fb (f c) h3 hpos⟩
  · rename_i hneg
    exact ⟨h1, rfl, sign_flip_nonpos br.fa (f c) hneg hz hfa⟩

/-- The sign-change invariant is maintained through the whole bisection
iteration loop. -/
theorem bracketLoop_signInv (f : ℚ → ℚ) (atol rtol : ℚ) :
    ∀ (n : Nat) (s : LoopState Unit), signInv f s.br →
      signInv f (bracketLoop f bisectMethod atol rtol n s).st.br := by
  intro n
  induction n with
  | zero => intro s hs; exact hs
  | succ n ih =>
    intro s hs
    by_cases hz : f (bisectMethod.candidate s.br s.ms) = 0
    · simp only [bracketLoop, if_pos hz]
      exact hs
    · have hnarrow :=
        bisect_narrow_signInv f s.br (bisectMethod.candidate s.br s.ms) hs hz
      by_cases hacc :
        bracket_accept
          (bisectMethod.narrow s.br s.ms (bisectMethod.candidate s.br s.ms)
            (f (bisectMethod.candidate s.br s.ms))).1.xa
          (bisectMethod.narrow s.br s.ms (bisectMethod.candidate s.br s.ms)
            (f (bisectMethod.candidate s.br s.ms))).1.xb
          atol rtol
      · simp only [bracketLoop, if_neg hz, if_pos hacc]
        exact hnarrow
      · simp only [bracketLoop, if_neg hz, if_neg hacc]
        exact ih _ hnarrow

/-- A bisection run started on a genuine sign-change bracket keeps the
sign-change invariant in its final state. -/
theorem bisect_run_signInv (f : ℚ → ℚ) (xa xb atol rtol : ℚ) (N : Int)
    (hconf : ¬ config_error atol rtol N) (h : f xa * f xb < 0) :
    signInv f (bisect f xa xb atol rtol N).st.br := by
  have hfa : ¬ f xa = 0 := by
    intro hfa
    rw [hfa, zero_mul] at h
    exact lt_irrefl 0 h
  have hfb : ¬ f xb = 0 := by
    intro hfb
    rw [hfb, mul_zero] at h
    exact lt_irrefl 0 h
  have hsign : ¬ 0 < f xa * f xb := not_lt.mpr h.le
  simp only [bisect, bracketSolve, if_neg hconf, if_neg hsign, if_neg hfa, if_neg hfb]
  exact bracketLoop_signInv f atol rtol _ _ ⟨rfl, rfl, h⟩

/-- Fuel bound for the Newton iteration counter. -/
theorem newtonLoop_iterations_le (f fp : ℚ → ℚ) (atol rtol : ℚ) :
    ∀ (n : Nat) (x : ℚ) (fc it : Nat),
      (newtonLoop f fp atol rtol n x fc it).iterations ≤ it + n := by
  intro n
  induction n with
  | zero => intro x fc it; simp [newtonLoop]
  | succ n ih =>
    intro x fc it
    simp only [newtonLoop]
    split
    · simp
    · split
      · simp
      · refine le_trans (ih _ _ _) ?_
        omega

/-- Fuel bound for the secant iteration counter. -/
theorem secantLoop_iterations_le (f : ℚ → ℚ) (atol rtol : ℚ) :
    ∀ (n : Nat) (x0 x1 f0 f1 : ℚ) (fc it : Nat),
      (secantLoop f atol rtol n x0 x1 f0 f1 fc it).iterations ≤ it + n := by
  intro n
  induction n with
  | zero => intro x0 x1 f0 f1 fc it; simp [secantLoop]
  | succ n ih =>
    intro x0 x1 f0 f1 fc it
    simp only [secantLoop]
    split
    · simp
    · split
      · simp
      · refine le_trans (ih _ _ _ _ _ _) ?_
        omega

/-- Fuel bound for the Halley iteration counter. -/
theorem halleyLoop_iterations_le (f fp fpp : ℚ → ℚ) (atol rtol : ℚ) :
    ∀ (n : Nat) (x : ℚ) (fc it : Nat),
      (halleyLoop f fp fpp atol rtol n x fc it).iterations ≤ it + n := by
  intro n
  induction n with
  | zero => intro x fc it; simp [halleyLoop]
  | succ n ih =>
    intro x fc it
    simp only [halleyLoop]
    split
    · simp
    · split
      · simp
      · refine le_trans (ih _ _ _) ?_
        omega

/-- The reported iteration count of a whole bracketed run never exceeds the
iteration cap. -/
theorem bracketSolve_iterations_le (f : ℚ → ℚ) (m : Method α) (a0 : α)
    (xa xb atol rtol : ℚ) (N : Int) :
    (bracketSolve f m a0 xa xb atol rtol N).st.iterations ≤ N.toNat := by
  by_cases hconf : config_error atol rtol N
  · simp [bracketSolve, if_pos hconf]
  · by_cases hsign : 0 < f xa * f xb
    · simp [bracketSolve, if_neg hconf, if_pos hsign]
    · by_cases hfa : f xa = 0
      · simp [bracketSolve, if_neg hconf, if_neg hsign, if_pos hfa]
      · by_cases hfb : f xb = 0
        · simp [bracketSolve, if_neg hconf, if_neg hsign, if_neg hfa, if_pos hfb]
        · simp only [bracketSolve, if_neg hconf, if_neg hsign, if_neg hfa, if_neg hfb]
          have := bracketLoop_iterations_le f m atol rtol N.toNat
            ⟨⟨xa, xb, f xa, f xb⟩, a0, (updBest xa (f xa) xb (f xb)).1,
              (updBest xa (f xa) xb (f xb)).2, 2, 0, [xb, xa]⟩
          simpa using this

/-- A bracketed run that exhausts the cap returns the tracked best point,
which is an evaluated point of minimal absolute function value. -/
theorem bracketSolve_exhausted_best (f : ℚ → ℚ) (m : Method α) (a0 : α)
    (xa xb atol rtol : ℚ) (N : Int)
    (h : (bracketSolve f m a0 xa xb atol rtol N).status = .convergenceError) :
    (bracketSolve f m a0 xa xb atol rtol N).root
        ∈ (bracketSolve f m a0 xa xb atol rtol N).st.evals ∧
      ∀ p ∈ (bracketSolve f m a0 xa xb atol rtol N).st.evals,
        |f ((bracketSolve f m a0 xa xb atol rtol N).root)| ≤ |f p| := by
  by_cases hconf : config_error atol rtol N
  · simp [bracketSolve, if_pos hconf] at h
  · by_cases hsign : 0 < f xa * f xb
    · simp [bracketSolve, if_neg hconf, if_pos hsign] at h
    · by_cases hfa : f xa = 0
      · simp [bracketSolve, if_neg hconf, if_neg hsign, if_pos hfa] at h
      · by_cases hfb : f xb = 0
        · simp [bracketSolve, if_neg hconf, if_neg hsign, if_neg hfa, if_pos hfb] at h
        · simp only [bracketSolve, if_neg hconf, if_neg hsign, if_neg hfa,
            if_neg hfb] at h ⊢
          have h0 : bestInv f
              (⟨⟨xa, xb, f xa, f xb⟩, a0, (updBest xa (f xa) xb (f xb)).1,
                (updBest xa (f xa) xb (f xb)).2, 2, 0, [xb, xa]⟩ : LoopState α) := by
            have := updBest_inv f xa (f xa) xb [xa] rfl (List.mem_singleton.mpr rfl)
              (by intro p hp; rw [List.mem_singleton.mp hp])
            exact ⟨this.1, this.2.1, this.2.2⟩
          have hrun := bracketLoop_best f m atol rtol N.toNat _ h0
          obtain ⟨⟨hb1, hb2, hb3⟩, hroot⟩ := hrun
          rw [hroot h]
          refine ⟨hb2, ?_⟩
          intro p hp
          rw [← hb1]
          exact hb3 p hp

/-- A whole bracketed run that returns Converged at a point that is not an
exact zero ends with a bracket accepted by the convergence predicate. -/
theorem bracketSolve_converged_width (f : ℚ → ℚ) (m : Method α) (a0 : α)
    (xa xb atol rtol : ℚ) (N : Int)
    (h : (bracketSolve f m a0 xa xb atol rtol N).status = .converged)
    (h0 : f ((bracketSolve f m a0 xa xb atol rtol N).root) ≠ 0) :
    bracket_accept (bracketSolve f m a0 xa xb atol rtol N).st.br.xa
      (bracketSolve f m a0 xa xb atol rtol N).st.br.xb atol rtol := by
  by_cases hconf : config_error atol rtol N
  · simp [bracketSolve, if_pos hconf] at h
  · by_cases hsign : 0 < f xa * f xb
    · simp [bracketSolve, if_neg hconf, if_pos hsign] at h
    · by_cases hfa : f xa = 0
      · simp [bracketSolve, if_neg hconf, if_neg hsign, if_pos hfa] at h0
        exact absurd hfa h0
      · by_cases hfb : f xb = 0
        · simp [bracketSolve, if_neg hconf, if_neg hsign, if_neg hfa, if_pos hfb] at h0
          exact absurd hfb h0
        · simp only [bracketSolve, if_neg hconf, if_neg hsign, if_neg hfa,
            if_neg hfb] at h h0 ⊢
          exact bracketLoop_converged_width f m atol rtol N.toNat _ h h0

/-- C1 counterexample: a bisect run that converges while the caller's
diagnostics record happens to hold the stale value -1 leaves -1 stored, so the
stored code on success is not the 0 sentinel and is not even distinguishable
from the sign-error code.  This matches the module docstring, which promises
only that "all other values mean the solver converged" and whose own example
shows a garbage error_num on success. -/
theorem error_num_sentinel_cex :
    (bisect (fun x => x - 1) 1 3 (1/2) 0 10).status = .converged ∧
      (bisectFull (fun x => x - 1) 1 3 (1/2) 0 10 ⟨0, 0, -1⟩).2.error_num = -1 ∧
      (bisectFull (fun x => x - 1) 1 3 (1/2) 0 10 ⟨0, 0, -1⟩).2.error_num ≠ 0 := by
  norm_num [bisectFull, bisect, bracketSolve, writeDiag, config_error]

/-- C1 (amended): the error code written to the diagnostics record is exactly
-1 when a sign error occurred and exactly -2 when a convergence error
occurred, while a successful run does not write `error_num` at all, so the
field retains the caller's prior value; success is indicated by any value
other than the two distinct negative codes rather than by a 0 sentinel. -/
theorem error_num_write_discipline (f : ℚ → ℚ) (m : Method α) (a0 : α)
    (xa xb atol rtol : ℚ) (N : Int) (d : FullOutput) :
    ((bracketSolve f m a0 xa xb atol rtol N).status = .signError →
      (writeDiag (bracketSolve f m a0 xa xb atol rtol N).status
          (bracketSolve f m a0 xa xb atol rtol N).st.funcalls
          (bracketSolve f m a0 xa xb atol rtol N).st.iterations d).error_num = SIGNERR) ∧
    ((bracketSolve f m a0 xa xb atol rtol N).status = .convergenceError →
      (writeDiag (bracketSolve f m a0 xa xb atol rtol N).status
          (bracketSolve f m a0 xa xb atol rtol N).st.funcalls
          (bracketSolve f m a0 xa xb atol rtol N).st.iterations d).error_num = CONVERR) ∧
    ((bracketSolve f m a0 xa xb atol rtol N).status = .converged →
      (writeDiag (bracketSolve f m a0 xa xb atol rtol N).status
          (bracketSolve f m a0 xa xb atol rtol N).st.funcalls
          (bracketSolve f m a0 xa xb atol rtol N).st.iterations d).error_num = d.error_num) ∧
    SIGNERR ≠ CONVERR := by
  refine ⟨fun h => by rw [h]; rfl, fun h => by rw [h]; rfl, fun h => by rw [h]; rfl,
    by decide⟩

/-- Witness for C1 (amended): a concrete converged bisect run with a stale
record value 281790720 (the value shown in the module docstring example)
retains that value. -/
theorem error_num_write_discipline_witness :
    (bisect (fun x => x - 1) 1 3 (1/2) 0 10).status = .converged ∧
      (writeDiag (bisect (fun x => x - 1) 1 3 (1/2) 0 10).status
          (bisect (fun x => x - 1) 1 3 (1/2) 0 10).st.funcalls
          (bisect (fun x => x - 1) 1 3 (1/2) 0 10).st.iterations
          ⟨5, 5, 281790720⟩).error_num = 281790720 := by
  have h : (bisect (fun x => x - 1) 1 3 (1/2) 0 10).status = .converged := by
    norm_num [bisect, bracketSolve, config_error]
  exact ⟨h, (error_num_write_discipline (fun x => x - 1) bisectMethod () 1 3 (1/2) 0 10
    ⟨5, 5, 281790720⟩).2.2.1 h⟩

/-- C2: a bracketed solver (the shared state machine run with any method
step, hence bisect, ridder, brenth and brentq) called on endpoints whose
function values have the same strict sign terminates with the Sign Error
status, charges zero iterations, and performs exactly the two endpoint
function evaluations, never entering the Iterate state. -/
theorem sign_error_detection (f : ℚ → ℚ) (m : Method α) (a0 : α)
    (xa xb atol rtol : ℚ) (N : Int) (hconf : ¬ config_error atol rtol N)
    (hsign : (0 < f xa ∧ 0 < f xb) ∨ (f xa < 0 ∧ f xb < 0)) :
    (bracketSolve f m a0 xa xb atol rtol N).status = .signError ∧
      (bracketSolve f m a0 xa xb atol rtol N).st.iterations = 0 ∧
      (bracketSolve f m a0 xa xb atol rtol N).st.funcalls = 2 := by
  have hpos : 0 < f xa * f xb := by
    rcases hsign with ⟨h1, h2⟩ | ⟨h1, h2⟩
    · exact mul_pos h1 h2
    · exact mul_pos_of_neg_of_neg h1 h2
  simp [bracketSolve, if_neg hconf, if_pos hpos]

/-- Witness for C2: the constant function 2 is strictly positive at both
endpoints of [0,1], so bisect reports a sign error with two calls and zero
iterations. -/
theorem sign_error_detection_witness :
    ¬ config_error (1/100 : ℚ) 0 10 ∧
      ((0 < ((1:ℚ) + 1) ∧ 0 < ((1:ℚ) + 1)) ∨ (((1:ℚ) + 1) < 0 ∧ ((1:ℚ) + 1) < 0)) ∧
      ((bracketSolve (fun _ : ℚ => (1:ℚ) + 1) bisectMethod () 0 1 (1/100) 0 10).status
          = .signError ∧
        (bracketSolve (fun _ : ℚ => (1:ℚ) + 1) bisectMethod () 0 1 (1/100) 0 10).st.iterations
          = 0 ∧
        (bracketSolve (fun _ : ℚ => (1:ℚ) + 1) bisectMethod () 0 1 (1/100) 0 10).st.funcalls
          = 2) := by
  have h1 : ¬ config_error (1/100 : ℚ) 0 10 := by norm_num [config_error]
  have h2 : (0 < ((1:ℚ) + 1) ∧ 0 < ((1:ℚ) + 1)) ∨ (((1:ℚ) + 1) < 0 ∧ ((1:ℚ) + 1) < 0) :=
    Or.inl ⟨by norm_num, by norm_num⟩
  exact ⟨h1, h2,
    sign_error_detection (fun _ : ℚ => (1:ℚ) + 1) bisectMethod () 0 1 (1/100) 0 10 h1 h2⟩

/-- C3 counterexample: a bisect run on f(x) = x over [-2, 2] hits an exact
root at the first midpoint and returns Converged while the bracket still has
width 4, far above atol + rtol * max(|xa|,|xb|) = 3/1000, so "whenever a
bracketed solver returns Converged the final bracket width is at most
atol + rtol * max(|xa|,|xb|)" fails as stated. -/
theorem converged_wide_bracket_cex :
    (bisect (fun x => x) (-2) 2 (1/1000) (1/1000) 10).status = .converged ∧
      ¬ bracket_accept (bisect (fun x => x) (-2) 2 (1/1000) (1/1000) 10).st.br.xa
          (bisect (fun x => x) (-2) 2 (1/1000) (1/1000) 10).st.br.xb (1/1000) (1/1000) := by
  norm_num [bisect, bracketSolve, bracketLoop, bisectMethod, updBest, bracket_accept,
    config_error, abs_eq_max_neg, max_def]

/-- C3 (amended): the solvers accept by the uniform predicates, and whenever a
bracketed solver returns Converged at a point that is not an exact zero of f,
the final bracket width is at most atol + rtol * max(|xa|,|xb|); a run that
converges through the exact-root short-circuit may terminate with a wider
bracket. -/
theorem converged_bracket_width (f : ℚ → ℚ) (m : Method α) (a0 : α)
    (xa xb atol rtol : ℚ) (N : Int)
    (h : (bracketSolve f m a0 xa xb atol rtol N).status = .converged)
    (h0 : f ((bracketSolve f m a0 xa xb atol rtol N).root) ≠ 0) :
    |(bracketSolve f m a0 xa xb atol rtol N).st.br.xb -
        (bracketSolve f m a0 xa xb atol rtol N).st.br.xa| ≤
      atol + rtol * max |(bracketSolve f m a0 xa xb atol rtol N).st.br.xa|
        |(bracketSolve f m a0 xa xb atol rtol N).st.br.xb| :=
  bracketSolve_converged_width f m a0 xa xb atol rtol N h h0

/-- Witness for C3 (amended): bisect on f(x) = 3x - 1 over [0,1] with atol = 1
converges by the tolerance test at a non-root, and the final bracket width is
within tolerance. -/
theorem converged_bracket_width_witness :
    (bisect (fun x => 3 * x - 1) 0 1 1 0 5).status = .converged ∧
      (fun x => 3 * x - 1 : ℚ → ℚ) ((bisect (fun x => 3 * x - 1) 0 1 1 0 5).root) ≠ 0 ∧
      |(bisect (fun x => 3 * x - 1) 0 1 1 0 5).st.br.xb -
          (bisect (fun x => 3 * x - 1) 0 1 1 0 5).st.br.xa| ≤
        1 + 0 * max |(bisect (fun x => 3 * x - 1) 0 1 1 0 5).st.br.xa|
          |(bisect (fun x => 3 * x - 1) 0 1 1 0 5).st.br.xb| := by
  have h : (bisect (fun x => 3 * x - 1) 0 1 1 0 5).status = .converged := by
    norm_num [bisect, bracketSolve, bracketLoop, bisectMethod, updBest, bracket_accept,
      config_error, abs_eq_max_neg, max_def]
  have h0 : (fun x => 3 * x - 1 : ℚ → ℚ) ((bisect (fun x => 3 * x - 1) 0 1 1 0 5).root)
      ≠ 0 := by
    norm_num [bisect, bracketSolve, bracketLoop, bisectMethod, updBest, bracket_accept,
      config_error, abs_eq_max_neg, max_def]
  exact ⟨h, h0, converged_bracket_width (fun x => 3 * x - 1) bisectMethod () 0 1 1 0 5 h h0⟩

/-- C4: a bisection run started on a valid sign-change bracket keeps the
sign-change invariant in its final working bracket (the cached endpoint
values are the true function values and have strictly opposite signs), and
each bisection narrowing step replaces exactly the endpoint whose function
value has the same sign as the candidate value. -/
theorem bisection_preserves_sign_change (f : ℚ → ℚ) (xa xb atol rtol : ℚ) (N : Int)
    (hconf : ¬ config_error atol rtol N) (h : f xa * f xb < 0) :
    signInv f (bisect f xa xb atol rtol N).st.br ∧
      ∀ (br : Bracket) (c fcv : ℚ),
        (0 < fcv * br.fa →
          (bisectMethod.narrow br () c fcv).1 = ⟨c, br.xb, fcv, br.fb⟩) ∧
        (¬ 0 < fcv * br.fa →
          (bisectMethod.narrow br () c fcv).1 = ⟨br.xa, c, br.fa, fcv⟩) := by
  refine ⟨bisect_run_signInv f xa xb atol rtol N hconf h, ?_⟩
  intro br c fcv
  constructor
  · intro hp
    show (if 0 < fcv * br.fa then ((⟨c, br.xb, fcv, br.fb⟩ : Bracket), ())
      else ((⟨br.xa, c, br.fa, fcv⟩ : Bracket), ())).1 = _
    rw [if_pos hp]
  · intro hp
    show (if 0 < fcv * br.fa then ((⟨c, br.xb, fcv, br.fb⟩ : Bracket), ())
      else ((⟨br.xa, c, br.fa, fcv⟩ : Bracket), ())).1 = _
    rw [if_neg hp]

/-- Witness for C4: bisect on f(x) = 3x - 1 over [0,1] starts from a genuine
sign change and its final bracket still satisfies the invariant. -/
theorem bisection_preserves_sign_change_witness :
    ¬ config_error (1:ℚ) 0 5 ∧
      (fun x => 3 * x - 1 : ℚ → ℚ) 0 * (fun x => 3 * x - 1 : ℚ → ℚ) 1 < 0 ∧
      signInv (fun x => 3 * x - 1) (bisect (fun x => 3 * x - 1) 0 1 1 0 5).st.br := by
  have h1 : ¬ config_error (1:ℚ) 0 5 := by norm_num [config_error]
  have h2 : (fun x => 3 * x - 1 : ℚ → ℚ) 0 * (fun x => 3 * x - 1 : ℚ → ℚ) 1 < 0 := by
    norm_num
  exact ⟨h1, h2, (bisection_preserves_sign_change (fun x => 3 * x - 1) 0 1 1 0 5 h1 h2).1⟩

/-- C5: with any positive iteration budget N, every solver charges at most N
iteration rounds whatever the callback does, and exhausting the budget yields
the ConvergenceError status with a defined return value: the tracked best
point for the bracketed skeleton and the last computed x for the open
methods. -/
theorem iteration_cap_enforced (f fp fpp : ℚ → ℚ) (m : Method α) (a0 : α)
    (xa xb x0 atol rtol : ℚ) (N : Int) (hN : 0 < N) :
    ((bracketSolve f m a0 xa xb atol rtol N).st.iterations ≤ N.toNat ∧
      ∀ s : LoopState α, bracketLoop f m atol rtol 0 s = ⟨s.best, .convergenceError, s⟩) ∧
    ((newton f fp x0 atol rtol N).iterations ≤ N.toNat ∧
      ∀ (x : ℚ) (fc it : Nat),
        newtonLoop f fp atol rtol 0 x fc it = ⟨x, .convergenceError, fc, it⟩) ∧
    ((secant f x0 atol rtol N).iterations ≤ N.toNat ∧
      ∀ (y0 y1 g0 g1 : ℚ) (fc it : Nat),
        secantLoop f atol rtol 0 y0 y1 g0 g1 fc it = ⟨y1, .convergenceError, fc, it⟩) ∧
    ((halley f fp fpp x0 atol rtol N).iterations ≤ N.toNat ∧
      ∀ (x : ℚ) (fc it : Nat),
        halleyLoop f fp fpp atol rtol 0 x fc it = ⟨x, .convergenceError, fc, it⟩) := by
  refine ⟨⟨bracketSolve_iterations_le f m a0 xa xb atol rtol N, fun s => rfl⟩,
    ⟨?_, fun x fc it => rfl⟩, ⟨?_, fun y0 y1 g0 g1 fc it => rfl⟩, ⟨?_, fun x fc it => rfl⟩⟩
  · by_cases hconf : config_error atol rtol N
    · simp [newton, if_pos hconf]
    · simp only [newton, if_neg hconf]
      simpa using newtonLoop_iterations_le f fp atol rtol N.toNat x0 0 0
  · by_cases hconf : config_error atol rtol N
    · simp [secant, if_pos hconf]
    · simp only [secant, if_neg hconf]
      simpa using secantLoop_iterations_le f atol rtol N.toNat x0 (secant_perturb x0)
        (f x0) (f (secant_perturb x0)) 2 0
  · by_cases hconf : config_error atol rtol N
    · simp [halley, if_pos hconf]
    · simp only [halley, if_neg hconf]
      simpa using halleyLoop_iterations_le f fp fpp atol rtol N.toNat x0 0 0

/-- Witness for C5: a concrete bisect run under the cap N = 1 charges at most
one iteration. -/
theorem iteration_cap_enforced_witness :
    (0 : Int) < 1 ∧
      (bracketSolve (fun x => 3 * x - 1) bisectMethod () 0 1 (1/100) 0 1).st.iterations
        ≤ (1 : Int).toNat := by
  have hN : (0 : Int) < 1 := by norm_num
  exact ⟨hN, ((iteration_cap_enforced (fun x => 3 * x - 1) (fun _ => 1) (fun _ => 0)
    bisectMethod () 0 1 1 (1/100) 0 1 hN).1).1⟩

/-- C6 counterexample: bisect on f(x) = x over [0,5] has an exact root at the
left endpoint and returns it immediately with Converged, but it charges two
function calls, not the single call the claim asserts: both endpoints are
always evaluated. -/
theorem exact_root_single_call_cex :
    (bisect (fun x => x) 0 5 (1/1000) (1/1000) 10).status = .converged ∧
      (bisect (fun x => x) 0 5 (1/1000) (1/1000) 10).root = 0 ∧
      (bisect (fun x => x) 0 5 (1/1000) (1/1000) 10).st.funcalls ≠ 1 := by
  norm_num [bisect, bracketSolve, config_error]

/-- C6 (amended): an exact root terminates a bracketed solver immediately with
Converged, before the iteration cap or tolerance check: when f(xa) = 0 the
solver returns xa with Converged, zero iterations and exactly two function
calls (the xb evaluation is never elided, deterministically), and an exact
zero at any in-loop candidate returns that candidate with Converged at once
regardless of remaining budget or tolerances. -/
theorem exact_root_short_circuit (f : ℚ → ℚ) (m : Method α) (a0 : α)
    (xa xb atol rtol : ℚ) (N : Int) (n : Nat) (s : LoopState α)
    (hconf : ¬ config_error atol rtol N) (hfa : f xa = 0)
    (hz : f (m.candidate s.br s.ms) = 0) :
    ((bracketSolve f m a0 xa xb atol rtol N).status = .converged ∧
      (bracketSolve f m a0 xa xb atol rtol N).root = xa ∧
      (bracketSolve f m a0 xa xb atol rtol N).st.funcalls = 2 ∧
      (bracketSolve f m a0 xa xb atol rtol N).st.iterations = 0) ∧
    ((bracketLoop f m atol rtol (n + 1) s).status = .converged ∧
      (bracketLoop f m atol rtol (n + 1) s).root = m.candidate s.br s.ms) := by
  have hsign : ¬ 0 < f xa * f xb := by
    rw [hfa, zero_mul]
    exact lt_irrefl 0
  constructor
  · simp [bracketSolve, if_neg hconf, if_neg hsign, if_pos hfa]
  · simp [bracketLoop, if_pos hz]

/-- Witness for C6 (amended): f(x) = x has an exact root at the endpoint 0 of
[0,5], and an exact root at the midpoint candidate of the bracket [-1,1]. -/
theorem exact_root_short_circuit_witness :
    ¬ config_error (1/1000 : ℚ) (1/1000) 10 ∧
      (fun x => x : ℚ → ℚ) 0 = 0 ∧
      (fun x => x : ℚ → ℚ)
        (bisectMethod.candidate ⟨-1, 1, -1, 1⟩
          (⟨⟨-1, 1, -1, 1⟩, (), 1, 1, 2, 0, [1, -1]⟩ : LoopState Unit).ms) = 0 ∧
      ((bracketSolve (fun x => x) bisectMethod () 0 5 (1/1000) (1/1000) 10).status
          = .converged ∧
        (bracketSolve (fun x => x) bisectMethod () 0 5 (1/1000) (1/1000) 10).root = 0) := by
  have h1 : ¬ config_error (1/1000 : ℚ) (1/1000) 10 := by norm_num [config_error]
  have h2 : (fun x => x : ℚ → ℚ) 0 = 0 := rfl
  have h3 : (fun x => x : ℚ → ℚ)
      (bisectMethod.candidate ⟨-1, 1, -1, 1⟩
        (⟨⟨-1, 1, -1, 1⟩, (), 1, 1, 2, 0, [1, -1]⟩ : LoopState Unit).ms) = 0 := by
    norm_num [bisectMethod]
  have := exact_root_short_circuit (fun x => x) bisectMethod () 0 5 (1/1000) (1/1000) 10
    3 ⟨⟨-1, 1, -1, 1⟩, (), 1, 1, 2, 0, [1, -1]⟩ h1 h2 h3
  exact ⟨h1, h2, h3, this.1.1, this.1.2.1⟩

/-- C7: a request with both tolerances zero or with a non-positive iteration
cap is a configuration error detected before any evaluation in every solver:
the outcome does not depend on the callbacks at all (they are never invoked),
the status is the configuration-error terminal, and zero function calls are
charged. -/
theorem config_error_fail_fast (f g fp gp fpp gpp : ℚ → ℚ) (m : Method α) (a0 : α)
    (xa xb x0 atol rtol : ℚ) (N : Int) (h : config_error atol rtol N) :
    (bracketSolve f m a0 xa xb atol rtol N = bracketSolve g m a0 xa xb atol rtol N ∧
      (bracketSolve f m a0 xa xb atol rtol N).status = .configError ∧
      (bracketSolve f m a0 xa xb atol rtol N).st.funcalls = 0) ∧
    (newton f fp x0 atol rtol N = newton g gp x0 atol rtol N ∧
      (newton f fp x0 atol rtol N).status = .configError ∧
      (newton f fp x0 atol rtol N).funcalls = 0) ∧
    (secant f x0 atol rtol N = secant g x0 atol rtol N ∧
      (secant f x0 atol rtol N).status = .configError ∧
      (secant f x0 atol rtol N).funcalls = 0) ∧
    (halley f fp fpp x0 atol rtol N = halley g gp gpp x0 atol rtol N ∧
      (halley f fp fpp x0 atol rtol N).status = .configError ∧
      (halley f fp fpp x0 atol rtol N).funcalls = 0) := by
  simp [bracketSolve, newton, secant, halley, if_pos h]

/-- Witness for C7: atol = rtol = 0 is rejected by newton with zero function
calls. -/
theorem config_error_fail_fast_witness :
    config_error (0:ℚ) 0 10 ∧
      (newton (fun x => x) (fun _ => 1) 1 0 0 10).status = .configError ∧
      (newton (fun x => x) (fun _ => 1) 1 0 0 10).funcalls = 0 := by
  have h : config_error (0:ℚ) 0 10 := Or.inl ⟨rfl, rfl⟩
  have := config_error_fail_fast (fun x => x) (fun x => x + 1) (fun _ => 1) (fun _ => 2)
    (fun _ => 0) (fun _ => 3) bisectMethod () 0 1 1 0 0 10 h
  exact ⟨h, this.2.1.2.1, this.2.1.2.2⟩

/-- C8: at any iterate, a Newton round whose derivative value is exactly zero
terminates at once with ConvergenceError and the current x, without taking
the division branch, and a Halley round whose denominator
2 f'(x)^2 - f(x) f''(x) is exactly zero is handled identically. -/
theorem zero_derivative_guard (f fp fpp : ℚ → ℚ) (atol rtol : ℚ) (n : Nat)
    (x : ℚ) (fc it : Nat) :
    (fp x = 0 →
      newtonLoop f fp atol rtol (n + 1) x fc it = ⟨x, .convergenceError, fc + 2, it⟩) ∧
    (2 * fp x ^ 2 - f x * fpp x = 0 →
      halleyLoop f fp fpp atol rtol (n + 1) x fc it = ⟨x, .convergenceError, fc + 3, it⟩) := by
  constructor
  · intro h
    simp [newtonLoop, if_pos h]
  · intro h
    simp [halleyLoop, if_pos h]

/-- Witness for C8: the zero derivative of a constant callback triggers the
guard in both Newton and Halley at a concrete state. -/
theorem zero_derivative_guard_witness :
    (fun _ : ℚ => (0:ℚ)) 1 = 0 ∧
      newtonLoop (fun _ => 1) (fun _ => 0) (1/10) 0 1 1 0 0 = ⟨1, .convergenceError, 2, 0⟩ ∧
      2 * ((fun _ : ℚ => (0:ℚ)) 1) ^ 2 - (fun _ : ℚ => (1:ℚ)) 1 * (fun _ : ℚ => (0:ℚ)) 1 = 0 ∧
      halleyLoop (fun _ => 1) (fun _ => 0) (fun _ => 0) (1/10) 0 1 1 0 0
        = ⟨1, .convergenceError, 3, 0⟩ := by
  have h1 : (fun _ : ℚ => (0:ℚ)) 1 = 0 := rfl
  have h2 : 2 * ((fun _ : ℚ => (0:ℚ)) 1) ^ 2 - (fun _ : ℚ => (1:ℚ)) 1 * (fun _ : ℚ => (0:ℚ)) 1
      = 0 := by norm_num
  have hg := zero_derivative_guard (fun _ => 1) (fun _ => 0) (fun _ => 0) (1/10) 0 0 1 0 0
  exact ⟨h1, hg.1 h1, h2, hg.2 h2⟩

/-- C9: when a bracketed run exhausts its iteration cap, the returned root is
an evaluated point whose absolute function value is minimal among all points
evaluated during the run, not an arbitrary endpoint of the final bracket. -/
theorem exhausted_returns_best_point (f : ℚ → ℚ) (m : Method α) (a0 : α)
    (xa xb atol rtol : ℚ) (N : Int)
    (h : (bracketSolve f m a0 xa xb atol rtol N).status = .convergenceError) :
    (bracketSolve f m a0 xa xb atol rtol N).root
        ∈ (bracketSolve f m a0 xa xb atol rtol N).st.evals ∧
      ∀ p ∈ (bracketSolve f m a0 xa xb atol rtol N).st.evals,
        |f ((bracketSolve f m a0 xa xb atol rtol N).root)| ≤ |f p| :=
  bracketSolve_exhausted_best f m a0 xa xb atol rtol N h

/-- Witness for C9: bisect on f(x) = 3x - 1 over [0,1] with cap 1 exhausts the
budget and returns the midpoint 1/2, the evaluated point of smallest |f|. -/
theorem exhausted_returns_best_point_witness :
    (bisect (fun x => 3 * x - 1) 0 1 (1/100) 0 1).status = .convergenceError ∧
      ((bisect (fun x => 3 * x - 1) 0 1 (1/100) 0 1).root
          ∈ (bisect (fun x => 3 * x - 1) 0 1 (1/100) 0 1).st.evals ∧
        ∀ p ∈ (bisect (fun x => 3 * x - 1) 0 1 (1/100) 0 1).st.evals,
          |(fun x => 3 * x - 1 : ℚ → ℚ) ((bisect (fun x => 3 * x - 1) 0 1 (1/100) 0 1).root)|
            ≤ |(fun x => 3 * x - 1 : ℚ → ℚ) p|) := by
  have h : (bisect (fun x => 3 * x - 1) 0 1 (1/100) 0 1).status = .convergenceError := by
    norm_num [bisect, bracketSolve, bracketLoop, bisectMethod, updBest, bracket_accept,
      config_error, abs_eq_max_neg, max_def]
  exact ⟨h, exhausted_returns_best_point (fun x => 3 * x - 1) bisectMethod () 0 1 (1/100) 0 1 h⟩

/-- C10: on a successful run with a full-output struct supplied, the struct is
updated to hold the new funcalls and iterations while error_num is exactly the
value the struct held before the call: the success path writes only the two
counters, and error_num is assigned only by the sign-error and
convergence-error paths of the write protocol. -/
theorem full_output_success_frame (f : ℚ → ℚ) (m : Method α) (a0 : α)
    (xa xb atol rtol : ℚ) (N : Int) (d : FullOutput)
    (h : (bracketSolve f m a0 xa xb atol rtol N).status = .converged) :
    writeDiag (bracketSolve f m a0 xa xb atol rtol N).status
        (bracketSolve f m a0 xa xb atol rtol N).st.funcalls
        (bracketSolve f m a0 xa xb atol rtol N).st.iterations d =
      ⟨((bracketSolve f m a0 xa xb atol rtol N).st.funcalls : Int),
        ((bracketSolve f m a0 xa xb atol rtol N).st.iterations : Int),
        d.error_num⟩ := by
  rw [h]
  rfl

/-- Witness for C10: a concrete converged bisect run with a stale record whose
error_num holds the docstring example's garbage value keeps that value while
both counters are written. -/
theorem full_output_success_frame_witness :
    (bisect (fun x => x - 1) 1 3 (1/2) 0 10).status = .converged ∧
      writeDiag (bisect (fun x => x - 1) 1 3 (1/2) 0 10).status
          (bisect (fun x => x - 1) 1 3 (1/2) 0 10).st.funcalls
          (bisect (fun x => x - 1) 1 3 (1/2) 0 10).st.iterations ⟨9, 9, 281790720⟩ =
        ⟨((bisect (fun x => x - 1) 1 3 (1/2) 0 10).st.funcalls : Int),
          ((bisect (fun x => x - 1) 1 3 (1/2) 0 10).st.iterations : Int), 281790720⟩ := by
  have h : (bisect (fun x => x - 1) 1 3 (1/2) 0 10).status = .converged := by
    norm_num [bisect, bracketSolve, config_error]
  exact ⟨h, full_output_success_frame (fun x => x - 1) bisectMethod () 1 3 (1/2) 0 10
    ⟨9, 9, 281790720⟩ h⟩

end CythonOptimize
